import Mathlib

/-!
Verification of a distributed transaction coordinator layered over three
relational database shards (nodes 1, 2, 3; node 1 is the central copy,
nodes 2 and 3 are the even/odd partitions).

This file shallowly embeds the core Python modules:

* python/utils/recovery_manager.py - recovery logging (log_backup and the
  cross backup), cross-node replay (_attempt_recovery_cross_node), the
  checkpoint-driven drain cycle (process_recovery_logs_with_global_checkpoints)
  and the global recovery mutex on checkpoint row node_id = 0;
* python/gui/add_transaction.py - the commit-and-replicate path of a write and
  the monotonic id allocation step;
* python/gui/view_transactions.py - scan-style read reconstruction;
* python/utils/server_ping.py - the liveness monitor;
* python/utils/lock_manager.py - the MySQL-backed distributed lock manager.

Database effects are modelled as pure state transformers.  A statement is an
opaque string; executing it on a shard appends it to that shard's list of
applied statements, and re-executing an already applied statement raises the
unique-key violation (MySQL errno 1062).  Connection failures are modelled by
a per-shard reachability flag.  sha256 is modelled by its pre-image string
(collisions of sha256 are outside the scope of the embedding).
-/

namespace DistCoord

/-- Status column of a recovery_log row. -/
inductive LogStatus where
  | PENDING
  | COMPLETED
  | FAILED
deriving DecidableEq, Repr

/-- One row of the recovery_log table. -/
structure RecEntry where
  logId : Nat
  targetNode : Nat
  sourceNode : Nat
  sqlStatement : String
  transactionHash : String
  status : LogStatus
  retryCount : Nat
  errorMessage : Option String
deriving DecidableEq, Repr

/-- RecoveryManager.generate_transaction_hash: the sha256 of the string
f-string target_source_sql_yyyymmdd.  Modelled by the pre-image string. -/
def generate_transaction_hash (targetNode sourceNode : Nat) (sqlStatement day : String) : String :=
  toString targetNode ++ "_" ++ toString sourceNode ++ "_" ++ sqlStatement ++ "_" ++ day

/-- The SQL predicate status IN (PENDING, COMPLETED) used by the dedup check. -/
def activeStatus (s : LogStatus) : Bool :=
  s = LogStatus.PENDING || s = LogStatus.COMPLETED

/-- SELECT COUNT(*) FROM recovery_log WHERE transaction_hash = h AND status IN
(PENDING, COMPLETED), on one shard's log. -/
def countActive (log : List RecEntry) (h : String) : Nat :=
  (log.filter (fun e => e.transactionHash = h && activeStatus e.status)).length

/-- Global state shared by the recovery subsystem: per-shard recovery_log,
per-shard auto-increment counter for log_id, per-shard reachability, and the
per-shard list of committed (applied) statements of the trans table. -/
structure World where
  recLog : Nat → List RecEntry
  nextId : Nat → Nat
  reachable : Nat → Bool
  applied : Nat → List String

/-- INSERT INTO recovery_log on shard n (auto-increment id). -/
def World.insertLog (w : World) (n : Nat) (e : Nat → RecEntry) : World :=
  { w with
    recLog := fun m => if m = n then w.recLog n ++ [e (w.nextId n)] else w.recLog m,
    nextId := fun m => if m = n then w.nextId n + 1 else w.nextId m }

/-- COMMIT of a statement on shard n (the trans-table effect of a write). -/
def World.commitStmt (w : World) (n : Nat) (q : String) : World :=
  { w with applied := fun m => if m = n then w.applied n ++ [q] else w.applied m }

/-- RecoveryManager._store_cross_backup, backup-node choice: the first node of
[1, 2, 3] distinct from the source, the target and the current node. -/
def backupNodeFor (sourceNode targetNode current : Nat) : Option Nat :=
  ([1, 2, 3].filter (fun n => n ≠ sourceNode && n ≠ targetNode && n ≠ current)).head?

/-- RecoveryManager._store_cross_backup: insert an identical row on the backup
node with error_message CROSS_BACKUP_FROM_NODE_current; every failure is
swallowed (the primary log suffices). -/
def store_cross_backup (w : World) (current targetNode sourceNode : Nat)
    (sqlStatement h : String) : World :=
  match backupNodeFor sourceNode targetNode current with
  | none => w
  | some b =>
      if w.reachable b then
        w.insertLog b (fun id =>
          ⟨id, targetNode, sourceNode, sqlStatement, h, LogStatus.PENDING, 0,
            some ("CROSS_BACKUP_FROM_NODE_" ++ toString current)⟩)
      else w

/-- RecoveryManager.log_backup run by the manager of shard current: dedup by
hash against rows in status PENDING/COMPLETED on the current shard, otherwise
insert a fresh PENDING row there and attempt the cross backup.  Returns false
only when the current shard cannot be reached. -/
def log_backup (w : World) (current targetNode sourceNode : Nat)
    (sqlStatement day : String) : World × Bool :=
  let h := generate_transaction_hash targetNode sourceNode sqlStatement day
  if w.reachable current then
    if 0 < countActive (w.recLog current) h then (w, true)
    else
      let w1 := w.insertLog current (fun id =>
        ⟨id, targetNode, sourceNode, sqlStatement, h, LogStatus.PENDING, 0, none⟩)
      (store_cross_backup w1 current targetNode sourceNode sqlStatement h, true)
  else (w, false)

/-- Result dictionary of replicate_transaction (status and logged fields). -/
structure ReplResult where
  success : Bool
  logged : Bool
deriving DecidableEq, Repr

/-- recovery_manager.replicate_transaction: re-execute the committed statement
on the target shard; on failure, a RecoveryManager based on the source shard's
configuration logs the statement via log_backup(target, source, sql).  The
function never raises: every exception is converted into an error result. -/
def replicate_transaction (w : World) (query : String) (sourceNode targetNode : Nat)
    (day : String) : World × ReplResult :=
  if w.reachable targetNode then
    (w.commitStmt targetNode query, ⟨true, false⟩)
  else
    let r := log_backup w sourceNode targetNode sourceNode query day
    (r.1, ⟨false, r.2⟩)

/-- Replication-target policy of add_transaction.render (commit branch):
primary 1 replicates to the natural partition shard (when distinct from 1);
a non-central primary replicates to 1 and, when it is an emergency primary,
additionally to the natural partition shard. -/
def replicationTargets (primaryNode partitionNode : Nat) : List Nat :=
  if primaryNode = 1 then
    if partitionNode ≠ 1 then [partitionNode] else []
  else
    1 :: (if primaryNode ≠ partitionNode ∧ partitionNode ≠ 1 then [partitionNode] else [])

/-- The per-target replication loop of the commit branch: each target is tried
in turn and its result collected; no failure interrupts the loop. -/
def runReplications (query : String) (primaryNode : Nat) (day : String) :
    List Nat → World → World × List (Nat × ReplResult)
  | [], w => (w, [])
  | t :: ts, w =>
      let r := replicate_transaction w query primaryNode t day
      let rest := runReplications query primaryNode day ts r.1
      (rest.1, (t, r.2) :: rest.2)

/-- Outcome of the commit path of a write. -/
structure CommitResult where
  committed : Bool
  replications : List (Nat × ReplResult)
deriving DecidableEq, Repr

/-- add_transaction.render, commit branch, from the point where conn.commit()
on the primary succeeds: the statement is durable on the primary, then every
replication target of the policy is attempted in turn. -/
def commitPipeline (w : World) (query : String) (primaryNode partitionNode : Nat)
    (day : String) : World × CommitResult :=
  let w0 := w.commitStmt primaryNode query
  let r := runReplications query primaryNode day (replicationTargets primaryNode partitionNode) w0
  (r.1, ⟨true, r.2⟩)

/-- Replay result strings of _attempt_recovery_cross_node. -/
inductive RecResult where
  | recovered
  | failed
  | skipped
deriving DecidableEq, Repr

/-- RecoveryManager._mark_recovery_status_in_node: UPDATE recovery_log SET
status, error_message WHERE log_id on the given shard; connection errors are
swallowed (state unchanged). -/
def mark_recovery_status_in_node (w : World) (nodeId logId : Nat) (st : LogStatus)
    (msg : String) : World :=
  if w.reachable nodeId then
    { w with recLog := fun m =>
        if m = nodeId then
          (w.recLog nodeId).map (fun e =>
            if e.logId = logId then { e with status := st, errorMessage := some msg } else e)
        else w.recLog m }
  else w

/-- RecoveryManager._increment_retry_count_in_node: UPDATE recovery_log SET
retry_count = retry_count + 1, error_message WHERE log_id on the given shard;
connection errors are swallowed. -/
def increment_retry_count_in_node (w : World) (nodeId logId : Nat) (msg : String) : World :=
  if w.reachable nodeId then
    { w with recLog := fun m =>
        if m = nodeId then
          (w.recLog nodeId).map (fun e =>
            if e.logId = logId then
              { e with retryCount := e.retryCount + 1, errorMessage := some msg }
            else e)
        else w.recLog m }
  else w

/-- RecoveryManager._attempt_recovery_cross_node for a log row found on shard
foundIn, run by the manager of shard currentNode.  In order: the max-retries
guard, the wrong-target skip, opening the local connection, the hash-dedup
check against COMPLETED rows of the local recovery_log, then re-execution of
the statement, where an already applied statement raises the duplicate-entry
error 1062 and is marked COMPLETED without touching the data. -/
def attempt_recovery_cross_node (w : World) (maxRetries currentNode : Nat)
    (log : RecEntry) (foundIn : Nat) : World × RecResult :=
  if maxRetries ≤ log.retryCount then
    (mark_recovery_status_in_node w foundIn log.logId LogStatus.FAILED
      "Max retries exceeded", RecResult.failed)
  else if log.targetNode ≠ currentNode then (w, RecResult.skipped)
  else if w.reachable currentNode = false then
    (increment_retry_count_in_node w foundIn log.logId
      "connection to current node failed", RecResult.failed)
  else if log.transactionHash ≠ "" ∧
      (w.recLog currentNode).any (fun e =>
        e.transactionHash = log.transactionHash && e.status = LogStatus.COMPLETED) then
    (mark_recovery_status_in_node w foundIn log.logId LogStatus.COMPLETED
      "Duplicate transaction - already processed", RecResult.skipped)
  else if log.sqlStatement ∈ w.applied currentNode then
    (mark_recovery_status_in_node w foundIn log.logId LogStatus.COMPLETED
      "Transaction already exists - duplicate detected", RecResult.skipped)
  else
    (mark_recovery_status_in_node (w.commitStmt currentNode log.sqlStatement)
      foundIn log.logId LogStatus.COMPLETED
      "Cross-node recovery successful", RecResult.recovered)

/-! ## Checkpoint and replay engine
Shallow embedding of process_recovery_logs_with_global_checkpoints for one
shard.  A replay attempt of one fetched row is abstracted by the oracle
ok : Nat → Bool giving, per log_id, whether _attempt_recovery_cross_node would
return one of the success results (recovered or skipped); the status writes of
the attempt (COMPLETED on success, retry_count + 1 on failure, FAILED once the
retry budget is exhausted) are kept. -/

/-- A recovery_log row projected to the fields the drain cycle reads. -/
structure CEntry where
  logId : Nat
  status : LogStatus
  retryCount : Nat
deriving DecidableEq, Repr

/-- Comparison used to model ORDER BY log_id ASC. -/
def entryLe (a b : CEntry) : Prop := a.logId ≤ b.logId

instance : DecidableRel entryLe := fun a b => inferInstanceAs (Decidable (a.logId ≤ b.logId))

instance : IsTotal CEntry entryLe := ⟨fun a b => Nat.le_total a.logId b.logId⟩

instance : IsTrans CEntry entryLe := ⟨fun _ _ _ => Nat.le_trans⟩

/-- RecoveryManager.get_new_recovery_logs_since_checkpoint: SELECT ... WHERE
log_id > checkpoint AND status = PENDING ORDER BY log_id ASC. -/
def fetchPendingSince (log : List CEntry) (cp : Nat) : List CEntry :=
  List.insertionSort entryLe
    (log.filter (fun e => decide (cp < e.logId) && e.status = LogStatus.PENDING))

/-- One replay attempt inside the drain loop: the updated row and whether the
result counts as a success for the consecutive-checkpoint tracking. -/
def attemptEntry (maxRetries : Nat) (ok : Nat → Bool) (e : CEntry) : CEntry × Bool :=
  if maxRetries ≤ e.retryCount then ({ e with status := LogStatus.FAILED }, false)
  else if ok e.logId then ({ e with status := LogStatus.COMPLETED }, true)
  else ({ e with retryCount := e.retryCount + 1 }, false)

/-- Write back the updated row (UPDATE ... WHERE log_id). -/
def markCEntry (log : List CEntry) (e : CEntry) : List CEntry :=
  log.map (fun x => if x.logId = e.logId then e else x)

/-- The sequential loop over the fetched rows: process in order, track
last_consecutive_success, advancing it only when the processed log_id
immediately follows it. -/
def processLogs (maxRetries : Nat) (ok : Nat → Bool) :
    List CEntry → List CEntry → Nat → List CEntry × Nat
  | [], log, last => (log, last)
  | e :: rest, log, last =>
      let a := attemptEntry maxRetries ok e
      let log1 := markCEntry log a.1
      let last1 := if a.2 && decide (e.logId = last + 1) then e.logId else last
      processLogs maxRetries ok rest log1 last1

/-- One drain cycle for one shard: fetch the pending rows past the checkpoint,
process them in log_id order, and persist the checkpoint only when the highest
consecutive success exceeds it. -/
def processNodeCycle (maxRetries : Nat) (ok : Nat → Bool) (log : List CEntry) (cp : Nat) :
    List CEntry × Nat :=
  let r := processLogs maxRetries ok (fetchPendingSince log cp) log cp
  (r.1, if cp < r.2 then r.2 else cp)

/-! ## Global recovery mutex (checkpoint row node_id = 0) -/

/-- RecoveryManager.acquire_global_recovery_lock: INSERT IGNORE the row
(0, -1), then UPDATE SET last_processed_log_id = pid WHERE node_id = 0 AND
last_processed_log_id = -1; the acquisition succeeds exactly when that UPDATE
matched a row (rowcount 1).  The state is the stored value of the row, none
when the row does not exist yet. -/
def acquire_global_recovery_lock (row : Option Int) (pid : Int) : Option Int × Bool :=
  let v := row.getD (-1)
  if v = -1 then (some pid, true) else (some v, false)

/-- RecoveryManager.release_global_recovery_lock: UPDATE SET
last_processed_log_id = -1 WHERE node_id = 0 AND last_processed_log_id = pid;
a value different from pid is left untouched. -/
def release_global_recovery_lock (row : Option Int) (pid : Int) : Option Int :=
  match row with
  | none => none
  | some v => if v = pid then some (-1) else some v

/-- Several processes attempting the acquisition, serialized by the database:
the final row value and, per process in order, whether its UPDATE won (the
Bool is exactly the guard process_recovery_logs_with_global_checkpoints uses
to run or skip the drain cycle). -/
def runLockAttempts (row : Option Int) : List Int → Option Int × List Bool
  | [] => (row, [])
  | p :: ps =>
      let r := acquire_global_recovery_lock row p
      let rest := runLockAttempts r.1 ps
      (rest.1, r.2 :: rest.2)

/-! ## Monotonic id allocation (quorum rule) -/

/-- Result dictionary of get_max_trans_id_multi_node (status, max_trans_id,
error). -/
structure MaxIdResult where
  ok : Bool
  maxTransId : Nat
  error : String
deriving DecidableEq, Repr

/-- List of live shards among [1, 2, 3]. -/
def liveNodes (alive : Nat → Bool) : List Nat :=
  [1, 2, 3].filter alive

/-- Modelled from the spec: get_max_trans_id_multi_node is imported by
python/gui/add_transaction.py from python.db.db_config but its definition is
absent from the sources; per spec section 4.6 step 5 it queries MAX(trans_id)
on each live shard and takes the maximum, requiring either the central shard
alive or both partition shards alive and failing with insufficient_quorum
otherwise.  maxOn gives MAX(trans_id) per shard. -/
def get_max_trans_id_multi_node (alive : Nat → Bool) (maxOn : Nat → Nat) : MaxIdResult :=
  if alive 1 || (alive 2 && alive 3) then
    ⟨true, ((liveNodes alive).map maxOn).foldr max 0, ""⟩
  else
    ⟨false, 0, "insufficient_quorum"⟩

/-- The id-allocation step of add_transaction.render (insert branch): on a
failed result the operation stops before executing the insert; otherwise the
insert of max_trans_id + 1 is executed on the primary.  Returns the data of
the primary shard (as inserted ids) and the error, if any. -/
def insertIdAllocation (alive : Nat → Bool) (maxOn : Nat → Nat) (data : List Nat) :
    List Nat × Option String :=
  let r := get_max_trans_id_multi_node alive maxOn
  if r.ok then (data ++ [r.maxTransId + 1], none)
  else (data, some r.error)

/-! ## Scan-style read reconstruction (view_transactions.render, no account
filter) -/

/-- A row of the trans table as far as the read path inspects it: the primary
key trans_id plus its remaining columns, opaque. -/
structure TRow where
  transId : Nat
  payload : String
deriving DecidableEq, Repr

/-- Comparison used to model sort_values on trans_id. -/
def rowLe (a b : TRow) : Prop := a.transId ≤ b.transId

instance : DecidableRel rowLe := fun a b => inferInstanceAs (Decidable (a.transId ≤ b.transId))

instance : IsTotal TRow rowLe := ⟨fun a b => Nat.le_total a.transId b.transId⟩

instance : IsTrans TRow rowLe := ⟨fun _ _ _ => Nat.le_trans⟩

/-- pandas drop_duplicates on trans_id with keep = first: keep the first row
of each trans_id, preserving order (seen collects the keys already kept). -/
def dedupByTransIdAux (seen : List Nat) : List TRow → List TRow
  | [] => []
  | r :: rest =>
      if r.transId ∈ seen then dedupByTransIdAux seen rest
      else r :: dedupByTransIdAux (r.transId :: seen) rest

/-- pandas drop_duplicates on trans_id with keep = first. -/
def dedupByTransId (l : List TRow) : List TRow :=
  dedupByTransIdAux [] l

/-- The rows the scan actually queries: node 1 alone when it is live
(authoritative), otherwise the live partition shards 2 and 3 in order. -/
def combinedRows (alive : Nat → Bool) (rows : Nat → List TRow) : List TRow :=
  if alive 1 then rows 1
  else (if alive 2 then rows 2 else []) ++ (if alive 3 then rows 3 else [])

/-- view_transactions.render, fetch branch with no account filter: fail when
no shard is live, otherwise query per the strategy, drop duplicate trans_ids
keeping the first, sort by trans_id and truncate to the row limit. -/
def scanRead (alive : Nat → Bool) (rows : Nat → List TRow) (limit : Nat) :
    Option (List TRow) :=
  if alive 1 = false ∧ alive 2 = false ∧ alive 3 = false then none
  else
    some ((List.insertionSort rowLe (dedupByTransId (combinedRows alive rows))).take limit)

/-! ## Liveness monitor (server_ping.NodePinger.ping_all_nodes) -/

/-- Observable actions of one ping cycle. -/
inductive PingAction where
  | advisoryLog (node : Nat)
  | recoveryCheck (node : Nat)
deriving DecidableEq, Repr

/-- NodePinger.ping_all_nodes: re-ping every node, and for each node that
transitioned from down to up print the came-back-online line and call
_check_recovery_for_node, which runs check_and_recover_pending_logs for that
node.  Returns the new status and the emitted actions in order. -/
def ping_all_nodes (prev : Nat → Bool) (checkNode : Nat → Bool) :
    (Nat → Bool) × List PingAction :=
  let newStatus := fun n => if n = 1 ∨ n = 2 ∨ n = 3 then checkNode n else prev n
  let recovered := [1, 2, 3].filter (fun n => !prev n && checkNode n)
  (newStatus,
    (recovered.map (fun n => [PingAction.advisoryLog n, PingAction.recoveryCheck n])).flatten)

/-! ## Distributed lock manager -/

/-- The distributed_lock row for one lock_name on one shard. -/
structure LockRow where
  lockedBy : String
  lockTime : Nat
deriving DecidableEq, Repr

/-- DistributedLockManager.acquire_lock on one shard, modelled on the row for
this lock_name alone.  The clock is a trace of per-iteration observations
(elapsed, now), in the same seconds unit as the timeout.  Per iteration: the
timeout guard, then SELECT FOR UPDATE; a missing row is inserted (the
IntegrityError branch cannot fire in this serialized model), an own row is a
re-entrant success, a foreign row older than the timeout is deleted as stale
and the loop retried, otherwise the transaction rolls back and the loop
retries after the sleep.  The in-memory _active_locks bookkeeping touches
neither the row nor the returned Bool and is not modelled here.  An exhausted
trace ends the run unsuccessfully with the state unchanged. -/
def acquire_lock (me : String) (timeout : Nat) :
    List (Nat × Nat) → Option LockRow → Bool × Option LockRow
  | [], row => (false, row)
  | (elapsed, now) :: rest, row =>
      if timeout < elapsed then (false, row)
      else
        match row with
        | none => (true, some ⟨me, now⟩)
        | some lr =>
            if lr.lockedBy = me then (true, some lr)
            else if timeout < now - lr.lockTime then acquire_lock me timeout rest none
            else acquire_lock me timeout rest (some lr)

/-- State of the lock manager for one resource family: the in-memory
_active_locks map (resource_id to the nodes holding it) and, per shard, the
distributed_lock rows as (lock_name, locked_by) pairs. -/
structure LMState where
  activeLocks : List (String × List Nat)
  rows : Nat → List (String × String)

/-- Lookup in the _active_locks map. -/
def lookupLocks (al : List (String × List Nat)) (rid : String) : Option (List Nat) :=
  (al.find? (fun p => p.1 = rid)).map Prod.snd

/-- The tracking update of DistributedLockManager.release_lock: drop the node
from the resource's node list and delete the key once the list is empty. -/
def updateTracking (al : List (String × List Nat)) (rid : String) (node : Nat) :
    List (String × List Nat) :=
  match al.find? (fun p => p.1 = rid) with
  | none => al
  | some q =>
      if node ∈ q.2 then
        let ns := q.2.erase node
        if ns.isEmpty then al.filter (fun p => p.1 ≠ rid)
        else al.map (fun p => if p.1 = rid then (rid, ns) else p)
      else al

/-- DistributedLockManager.release_lock: DELETE FROM distributed_lock WHERE
lock_name = lock_rid AND locked_by = me, then update the tracking; an
unreachable shard raises, caught and turned into false with no change. -/
def release_lock (reachable : Nat → Bool) (me : String) (s : LMState) (rid : String)
    (node : Nat) : LMState × Bool :=
  if reachable node then
    ({ activeLocks := updateTracking s.activeLocks rid node,
       rows := fun m =>
         if m = node then
           (s.rows node).filter (fun r => !(r.1 = "lock_" ++ rid && r.2 = me))
         else s.rows m }, true)
  else (s, false)

/-- The per-node loop of release_multi_node_lock, counting successes. -/
def releaseFold (reachable : Nat → Bool) (me : String) (rid : String) :
    List Nat → LMState → LMState × Nat
  | [], s => (s, 0)
  | n :: ns, s =>
      let r := release_lock reachable me s rid n
      let rest := releaseFold reachable me rid ns r.1
      (rest.1, (if r.2 then 1 else 0) + rest.2)

/-- DistributedLockManager.release_multi_node_lock: attempt release on every
nominated shard, then unconditionally delete the resource from _active_locks,
and return whether at least one per-shard release succeeded. -/
def release_multi_node_lock (reachable : Nat → Bool) (me : String) (s : LMState)
    (rid : String) (nodes : List Nat) : LMState × Bool :=
  let r := releaseFold reachable me rid nodes s
  ({ r.1 with activeLocks := r.1.activeLocks.filter (fun p => p.1 ≠ rid) },
    decide (0 < r.2))

/-! ## Helper lemmas -/

theorem runLockAttempts_held (v : Int) (hv : v ≠ -1) :
    ∀ ps : List Int, runLockAttempts (some v) ps = (some v, List.replicate ps.length false)
  | [] => rfl
  | p :: ps => by
      simp only [runLockAttempts, acquire_global_recovery_lock, Option.getD_some, if_neg hv,
        List.length_cons, List.replicate_succ]
      rw [runLockAttempts_held v hv ps]

/-! ## Claim theorems -/

/-- C3: with the checkpoint row node_id = 0 unlocked (absent or holding -1),
when several processes attempt the conditional update from -1 to their pid in
some serialization order, exactly the first attempt observes rowcount 1 (and,
per the guard in process_recovery_logs_with_global_checkpoints, runs the drain
cycle) while every later attempt observes rowcount 0 and skips recovery; the
row then stores the winner pid, a release by any other pid leaves the row
unchanged, and a release by the winner restores -1. -/
theorem C3_global_recovery_mutex (p : Int) (ps : List Int) (row : Option Int)
    (hrow : row = none ∨ row = some (-1)) (hp : p ≠ -1) :
    (runLockAttempts row (p :: ps)).2 = true :: List.replicate ps.length false ∧
    ((runLockAttempts row (p :: ps)).2.count true = 1) ∧
    (runLockAttempts row (p :: ps)).1 = some p ∧
    (∀ q : Int, q ≠ p → release_global_recovery_lock (some p) q = some p) ∧
    release_global_recovery_lock (some p) p = some (-1) := by
  have hacq : acquire_global_recovery_lock row p = (some p, true) := by
    rcases hrow with h | h <;> subst h <;>
      simp [acquire_global_recovery_lock]
  have hrun : runLockAttempts row (p :: ps) = (some p, true :: List.replicate ps.length false) := by
    simp only [runLockAttempts, hacq]
    rw [runLockAttempts_held p hp ps]
  refine ⟨by rw [hrun], ?_, by rw [hrun], ?_, ?_⟩
  · rw [hrun]
    simp [List.count_replicate]
  · intro q hq
    have hpq : p ≠ q := fun h => hq h.symm
    simp [release_global_recovery_lock, hpq]
  · simp [release_global_recovery_lock]

/-- C3 witness: three processes with pids 100, 200, 300 racing on an unlocked
row; the first wins, the others skip, and only pid 100 can release. -/
theorem C3_global_recovery_mutex_witness :
    (runLockAttempts (some (-1)) [100, 200, 300]).2 = [true, false, false] ∧
    (runLockAttempts (some (-1)) [100, 200, 300]).1 = some 100 ∧
    release_global_recovery_lock (some 100) 200 = some 100 ∧
    release_global_recovery_lock (some 100) 100 = some (-1) := by
  have h := C3_global_recovery_mutex 100 [200, 300] (some (-1)) (Or.inr rfl) (by decide)
  exact ⟨h.1, h.2.2.1, h.2.2.2.1 200 (by decide), h.2.2.2.2⟩

/-- C8 counterexample: with node 3 previously down and now answering the ping,
ping_all_nodes emits a recoveryCheck action, i.e. the monitoring path invokes
check_and_recover_pending_logs for node 3, contradicting the claim that the
liveness monitor never initiates recovery. -/
theorem C8_monitor_counterexample :
    PingAction.recoveryCheck 3 ∈ (ping_all_nodes (fun _ => false) (fun n => n == 3)).2 := by
  decide

/-- C8 amended: when a shard transitions from down to up during a ping cycle,
the monitor emits the advisory log line and additionally triggers a
recovery-log replay from the monitoring path (it calls
check_and_recover_pending_logs via _check_recovery_for_node for exactly the
shards that transitioned from down to up). -/
theorem C8_monitor_triggers_recovery (prev check : Nat → Bool) (n : Nat) :
    (PingAction.recoveryCheck n ∈ (ping_all_nodes prev check).2 ↔
      (n ∈ [1, 2, 3] ∧ prev n = false ∧ check n = true)) ∧
    (PingAction.advisoryLog n ∈ (ping_all_nodes prev check).2 ↔
      (n ∈ [1, 2, 3] ∧ prev n = false ∧ check n = true)) := by
  constructor <;>
  · simp only [ping_all_nodes, List.mem_flatten, List.mem_map, List.mem_filter]
    constructor
    · rintro ⟨l, ⟨m, ⟨hm, hf⟩, rfl⟩, hmem⟩
      simp only [List.mem_cons, List.mem_singleton, List.not_mem_nil, or_false] at hmem
      rcases hmem with h | h <;> first
        | (cases h; exact ⟨hm, by simpa [Bool.and_eq_true] using hf⟩)
        | (cases h)
    · rintro ⟨hm, hdown, hup⟩
      exact ⟨_, ⟨n, ⟨hm, by simp [hdown, hup]⟩, rfl⟩, by simp⟩

/-- C9 counterexample: acquire with timeout 0 against a lock held by session A
(age 8 seconds), with the first elapsed reading equal to 0: the loop reaches
the row check, the stale test age > timeout = 0 fires, the other session's
row is deleted, and the call then returns false with the row gone - the row is
not left in place as claimed. -/
theorem C9_timeout_zero_counterexample :
    acquire_lock "B" 0 [(0, 10), (1, 10)] (some ⟨"A", 2⟩) = (false, none) ∧
    ("A" : String) ≠ "B" := by
  constructor
  · rfl
  · decide

/-- C9 amended: acquire with timeout 0 against a lock held by another session
returns false on the first loop iteration and leaves the other session's row
in place, provided the first elapsed-time reading is already positive; when a
0 elapsed reading is observed first, the held row is instead treated as stale
(the stale threshold equals the timeout) and deleted before the call times
out, as the counterexample shows. -/
theorem C9_timeout_zero_returns_false (me : String) (lr : LockRow) (e now : Nat)
    (rest : List (Nat × Nat)) (hother : lr.lockedBy ≠ me) (hpos : 0 < e) :
    acquire_lock me 0 ((e, now) :: rest) (some lr) = (false, some lr) := by
  have : lr.lockedBy = me ↔ False := iff_false_intro hother
  simp [acquire_lock, hpos]

/-- C9 witness: session B, timeout 0, against a row held by A, first elapsed
reading 1 second: false is returned and the row survives. -/
theorem C9_timeout_zero_witness :
    ((⟨"A", 5⟩ : LockRow).lockedBy ≠ "B") ∧ 0 < 1 ∧
    acquire_lock "B" 0 [(1, 7)] (some ⟨"A", 5⟩) = (false, some ⟨"A", 5⟩) :=
  ⟨by decide, by decide,
    C9_timeout_zero_returns_false "B" ⟨"A", 5⟩ 1 7 [] (by decide) (by decide)⟩

theorem releaseFold_all_unreachable (reachable : Nat → Bool) (me rid : String)
    (hall : ∀ n, reachable n = false) :
    ∀ (nodes : List Nat) (s : LMState), releaseFold reachable me rid nodes s = (s, 0)
  | [], _ => rfl
  | n :: ns, s => by
      simp only [releaseFold, release_lock, hall n, Bool.false_eq_true, if_false]
      rw [releaseFold_all_unreachable reachable me rid hall ns s]
      simp

/-- C10: release_multi_node_lock always deletes the resource from the
in-memory _active_locks map before returning, even when it returns false
because no per-shard release succeeded; in that all-unreachable case the
distributed_lock rows of every shard are left exactly as they were. -/
theorem C10_release_clears_tracking (reachable : Nat → Bool) (me : String) (s : LMState)
    (rid : String) (nodes : List Nat) :
    lookupLocks (release_multi_node_lock reachable me s rid nodes).1.activeLocks rid = none ∧
    ((∀ n, reachable n = false) →
      (release_multi_node_lock reachable me s rid nodes).2 = false ∧
      (release_multi_node_lock reachable me s rid nodes).1.rows = s.rows) := by
  constructor
  · have hnone : ∀ al : List (String × List Nat),
        (al.filter (fun p => p.1 ≠ rid)).find? (fun p => p.1 = rid) = none := by
      intro al
      rw [List.find?_eq_none]
      intro x hx
      have := (List.mem_filter.mp hx).2
      simpa using this
    simp [release_multi_node_lock, lookupLocks, hnone]
  · intro hall
    simp [release_multi_node_lock, releaseFold_all_unreachable reachable me rid hall nodes s]

/-- C10 witness: all shards unreachable; after the call the tracking map shows
no lock for the resource while the distributed_lock rows still exist. -/
theorem C10_release_clears_tracking_witness :
    lookupLocks (release_multi_node_lock (fun _ => false) "app"
      ⟨[("r1", [1, 2])], fun _ => [("lock_r1", "app")]⟩ "r1" [1, 2, 3]).1.activeLocks "r1"
        = none ∧
    (release_multi_node_lock (fun _ => false) "app"
      ⟨[("r1", [1, 2])], fun _ => [("lock_r1", "app")]⟩ "r1" [1, 2, 3]).2 = false ∧
    (release_multi_node_lock (fun _ => false) "app"
      ⟨[("r1", [1, 2])], fun _ => [("lock_r1", "app")]⟩ "r1" [1, 2, 3]).1.rows 1
        = [("lock_r1", "app")] := by
  have h := C10_release_clears_tracking (fun _ => false) "app"
    ⟨[("r1", [1, 2])], fun _ => [("lock_r1", "app")]⟩ "r1" [1, 2, 3]
  have h2 := h.2 (fun _ => rfl)
  exact ⟨h.1, h2.1, by rw [h2.2]⟩

theorem foldr_max_ge (f : Nat → Nat) :
    ∀ (l : List Nat), ∀ n ∈ l, f n ≤ (l.map f).foldr max 0
  | a :: l, n, hn => by
      rcases List.mem_cons.mp hn with rfl | h
      · exact Nat.le_max_left _ _
      · exact Nat.le_trans (foldr_max_ge f l n h) (Nat.le_max_right _ _)

theorem foldr_max_mem (f : Nat → Nat) :
    ∀ (l : List Nat), l ≠ [] → ∃ n ∈ l, (l.map f).foldr max 0 = f n
  | [a], _ => ⟨a, List.mem_singleton_self a, by simp⟩
  | a :: b :: l, _ => by
      obtain ⟨n, hn, hfold⟩ := foldr_max_mem f (b :: l) (by simp)
      have hfe : ((a :: b :: l).map f).foldr max 0
          = max (f a) (((b :: l).map f).foldr max 0) := rfl
      by_cases hle : ((b :: l).map f).foldr max 0 ≤ f a
      · refine ⟨a, List.mem_cons_self a _, ?_⟩
        rw [hfe, Nat.max_eq_left hle]
      · refine ⟨n, List.mem_cons_of_mem a hn, ?_⟩
        rw [hfe, Nat.max_eq_right (Nat.le_of_not_le hle), hfold]

/-- C6 (spec-modelled id allocation): when the quorum rule holds (central
alive, or both partition shards alive) the pipeline inserts exactly the id
max(trans_id over the live shards) + 1, which is strictly greater than every
live shard's maximum and is one more than one of them; when the quorum rule
fails, the pipeline aborts with insufficient_quorum and no insert is
executed. -/
theorem C6_id_allocation (alive : Nat → Bool) (maxOn : Nat → Nat) (data : List Nat) :
    ((alive 1 = true ∨ (alive 2 = true ∧ alive 3 = true)) →
      ∃ next,
        insertIdAllocation alive maxOn data = (data ++ [next], none) ∧
        (∀ n ∈ liveNodes alive, maxOn n < next) ∧
        (∃ n ∈ liveNodes alive, next = maxOn n + 1)) ∧
    (¬(alive 1 = true ∨ (alive 2 = true ∧ alive 3 = true)) →
      insertIdAllocation alive maxOn data = (data, some "insufficient_quorum")) := by
  constructor
  · intro hq
    have hcond : (alive 1 || (alive 2 && alive 3)) = true := by
      rcases hq with h | ⟨h2, h3⟩ <;> simp_all
    refine ⟨((liveNodes alive).map maxOn).foldr max 0 + 1, ?_, ?_, ?_⟩
    · simp [insertIdAllocation, get_max_trans_id_multi_node, hcond]
    · intro n hn
      exact Nat.lt_succ_of_le (foldr_max_ge maxOn (liveNodes alive) n hn)
    · have hne : liveNodes alive ≠ [] := by
        rcases hq with h | ⟨h2, h3⟩
        · intro hcontra
          have : (1 : Nat) ∈ liveNodes alive := by simp [liveNodes, h]
          simp [hcontra] at this
        · intro hcontra
          have : (2 : Nat) ∈ liveNodes alive := by simp [liveNodes, h2]
          simp [hcontra] at this
      obtain ⟨n, hn, hfold⟩ := foldr_max_mem maxOn (liveNodes alive) hne
      exact ⟨n, hn, by rw [hfold]⟩
  · intro hq
    have hcond : (alive 1 || (alive 2 && alive 3)) = false := by
      cases h1 : alive 1 <;> cases h2 : alive 2 <;> cases h3 : alive 3 <;> simp_all
    simp [insertIdAllocation, get_max_trans_id_multi_node, hcond]

/-- C6 witness: central down, both partitions alive with maxima 7 and 9:
the inserted id is 10; central and partition 2 down: abort with
insufficient_quorum and no insert. -/
theorem C6_id_allocation_witness :
    insertIdAllocation (fun n => n == 2 || n == 3) (fun n => if n = 2 then 7 else 9) []
      = ([10], none) ∧
    insertIdAllocation (fun n => n == 3) (fun _ => 7) [5]
      = ([5], some "insufficient_quorum") := by
  constructor
  · obtain ⟨next, heq, _, _⟩ :=
      (C6_id_allocation (fun n => n == 2 || n == 3) (fun n => if n = 2 then 7 else 9) []).1
        (Or.inr ⟨rfl, rfl⟩)
    have : next = 10 := by
      have h10 : insertIdAllocation (fun n => n == 2 || n == 3)
          (fun n => if n = 2 then 7 else 9) [] = ([10], none) := by decide
      have := heq.symm.trans h10
      simpa using congrArg (fun p => p.1) this
    rw [this] at heq
    exact heq
  · exact (C6_id_allocation (fun n => n == 3) (fun _ => 7) [5]).2 (by decide)

theorem head?_filter_pred {α : Type} (l : List α) (p : α → Bool) (b : α)
    (h : (l.filter p).head? = some b) : p b = true := by
  cases hf : l.filter p with
  | nil => rw [hf] at h; cases h
  | cons x xs =>
      rw [hf] at h
      have hb : b = x := by simpa using h.symm
      subst hb
      exact (List.mem_filter.mp (hf ▸ List.mem_cons_self b xs)).2

theorem backupNodeFor_ne_current (sourceNode targetNode current b : Nat)
    (h : backupNodeFor sourceNode targetNode current = some b) : b ≠ current := by
  have := head?_filter_pred _ _ _ h
  simp only [Bool.and_eq_true, decide_eq_true_eq] at this
  exact this.2

theorem insertLog_recLog_ne (w : World) (n : Nat) (e : Nat → RecEntry) (m : Nat)
    (hm : m ≠ n) : (w.insertLog n e).recLog m = w.recLog m := by
  simp [World.insertLog, hm]

theorem insertLog_recLog_self (w : World) (n : Nat) (e : Nat → RecEntry) :
    (w.insertLog n e).recLog n = w.recLog n ++ [e (w.nextId n)] := by
  simp [World.insertLog]

theorem insertLog_reachable (w : World) (n : Nat) (e : Nat → RecEntry) :
    (w.insertLog n e).reachable = w.reachable := rfl

theorem insertLog_applied (w : World) (n : Nat) (e : Nat → RecEntry) :
    (w.insertLog n e).applied = w.applied := rfl

theorem store_cross_backup_recLog_current (w : World) (c t s : Nat) (q hh : String) :
    (store_cross_backup w c t s q hh).recLog c = w.recLog c := by
  unfold store_cross_backup
  cases hb : backupNodeFor s t c with
  | none => rfl
  | some b =>
      have hbc : b ≠ c := backupNodeFor_ne_current s t c b hb
      by_cases hr : w.reachable b = true
      · simp [hr, insertLog_recLog_ne w b _ c (Ne.symm hbc)]
      · simp [hr]

theorem store_cross_backup_reachable (w : World) (c t s : Nat) (q hh : String) :
    (store_cross_backup w c t s q hh).reachable = w.reachable := by
  unfold store_cross_backup
  cases backupNodeFor s t c with
  | none => rfl
  | some b =>
      by_cases hr : w.reachable b = true
      · simp [hr, insertLog_reachable]
      · simp [hr]

theorem store_cross_backup_applied (w : World) (c t s : Nat) (q hh : String) :
    (store_cross_backup w c t s q hh).applied = w.applied := by
  unfold store_cross_backup
  cases backupNodeFor s t c with
  | none => rfl
  | some b =>
      by_cases hr : w.reachable b = true
      · simp [hr, insertLog_applied]
      · simp [hr]

theorem countActive_append_match (l : List RecEntry) (e : RecEntry) (h : String)
    (he : (e.transactionHash = h && activeStatus e.status) = true) :
    countActive (l ++ [e]) h = countActive l h + 1 := by
  simp [countActive, List.filter_append, he]

/-- C4: log_backup called twice by the source shard's manager within the same
hash window, starting from a log holding no PENDING/COMPLETED row with that
hash: after the two calls the source shard holds exactly one PENDING/COMPLETED
row with the hash; both calls return success and the second call detects the
existing row and leaves the whole state unchanged (no insert). -/
theorem C4_log_backup_dedup (w : World) (t s : Nat) (sql day : String)
    (hreach : w.reachable s = true)
    (hfresh : countActive (w.recLog s) (generate_transaction_hash t s sql day) = 0) :
    countActive ((log_backup (log_backup w s t s sql day).1 s t s sql day).1.recLog s)
        (generate_transaction_hash t s sql day) = 1 ∧
    (log_backup w s t s sql day).2 = true ∧
    (log_backup (log_backup w s t s sql day).1 s t s sql day).2 = true ∧
    (log_backup (log_backup w s t s sql day).1 s t s sql day).1
      = (log_backup w s t s sql day).1 := by
  set h := generate_transaction_hash t s sql day with hh
  set e : Nat → RecEntry :=
    fun id => ⟨id, t, s, sql, h, LogStatus.PENDING, 0, none⟩ with he
  have hstep1 : log_backup w s t s sql day
      = (store_cross_backup (w.insertLog s e) s t s sql h, true) := by
    rw [log_backup]
    simp only [← hh, hreach, if_true, hfresh, Nat.lt_irrefl, if_false, ← he]
  have hcount1 : countActive ((log_backup w s t s sql day).1.recLog s) h = 1 := by
    rw [hstep1]
    simp only [store_cross_backup_recLog_current, insertLog_recLog_self]
    rw [countActive_append_match _ _ _ (by simp [he, activeStatus]), hfresh]
  have hreach1 : (log_backup w s t s sql day).1.reachable s = true := by
    rw [hstep1]
    simp only [store_cross_backup_reachable, insertLog_reachable]
    exact hreach
  have hstep2 : log_backup (log_backup w s t s sql day).1 s t s sql day
      = ((log_backup w s t s sql day).1, true) := by
    rw [log_backup]
    simp only [← hh, hreach1, if_true, hcount1]
    simp
  refine ⟨?_, ?_, ?_, ?_⟩
  · rw [hstep2]
    exact hcount1
  · rw [hstep1]
  · rw [hstep2]
  · rw [hstep2]

/-- C4 witness: target 3, source 1, a concrete statement, an initially empty
world: the double call leaves exactly one active row on shard 1 and the second
call is a pure dedup hit. -/
theorem C4_log_backup_dedup_witness :
    countActive ((log_backup (log_backup
        ⟨fun _ => [], fun _ => 1, fun _ => true, fun _ => []⟩
        1 3 1 "INSERT INTO trans VALUES (7)" "20251012").1
        1 3 1 "INSERT INTO trans VALUES (7)" "20251012").1.recLog 1)
      (generate_transaction_hash 3 1 "INSERT INTO trans VALUES (7)" "20251012") = 1 ∧
    (log_backup (log_backup
        ⟨fun _ => [], fun _ => 1, fun _ => true, fun _ => []⟩
        1 3 1 "INSERT INTO trans VALUES (7)" "20251012").1
        1 3 1 "INSERT INTO trans VALUES (7)" "20251012").2 = true := by
  have h := C4_log_backup_dedup
    ⟨fun _ => [], fun _ => 1, fun _ => true, fun _ => []⟩
    3 1 "INSERT INTO trans VALUES (7)" "20251012" rfl (by rfl)
  exact ⟨h.1, h.2.2.1⟩

theorem countActive_le_append (l : List RecEntry) (e : RecEntry) (h : String) :
    countActive l h ≤ countActive (l ++ [e]) h := by
  simp only [countActive, List.filter_append, List.length_append]
  exact Nat.le_add_right _ _

theorem insertLog_countActive_le (w : World) (m : Nat) (e : Nat → RecEntry) (n : Nat)
    (h : String) : countActive (w.recLog n) h ≤ countActive ((w.insertLog m e).recLog n) h := by
  by_cases hnm : n = m
  · subst hnm
    rw [insertLog_recLog_self]
    exact countActive_le_append _ _ _
  · rw [insertLog_recLog_ne w m e n hnm]

theorem store_cross_backup_countActive_le (w : World) (c t s : Nat) (q hh : String)
    (n : Nat) (h : String) :
    countActive (w.recLog n) h ≤ countActive ((store_cross_backup w c t s q hh).recLog n) h := by
  unfold store_cross_backup
  cases backupNodeFor s t c with
  | none => exact Nat.le_refl _
  | some b =>
      by_cases hr : w.reachable b = true
      · simp only [hr, if_true]
        exact insertLog_countActive_le w b _ n h
      · simp [hr]

theorem log_backup_countActive_le (w : World) (c t s : Nat) (q day : String)
    (n : Nat) (h : String) :
    countActive (w.recLog n) h ≤ countActive ((log_backup w c t s q day).1.recLog n) h := by
  rw [log_backup]
  by_cases hr : w.reachable c = true
  · simp only [hr, if_true]
    by_cases hc : 0 < countActive (w.recLog c) (generate_transaction_hash t s q day)
    · simp [hc]
    · simp only [hc, if_false]
      exact Nat.le_trans (insertLog_countActive_le w c _ n h)
        (store_cross_backup_countActive_le _ c t s q _ n h)
  · simp [hr]

theorem log_backup_reachable (w : World) (c t s : Nat) (q day : String) :
    (log_backup w c t s q day).1.reachable = w.reachable := by
  rw [log_backup]
  by_cases hr : w.reachable c = true
  · simp only [hr, if_true]
    by_cases hc : 0 < countActive (w.recLog c) (generate_transaction_hash t s q day)
    · simp [hc]
    · simp only [hc, if_false]
      rw [store_cross_backup_reachable, insertLog_reachable]
  · simp [hr]

theorem log_backup_applied (w : World) (c t s : Nat) (q day : String) :
    (log_backup w c t s q day).1.applied = w.applied := by
  rw [log_backup]
  by_cases hr : w.reachable c = true
  · simp only [hr, if_true]
    by_cases hc : 0 < countActive (w.recLog c) (generate_transaction_hash t s q day)
    · simp [hc]
    · simp only [hc, if_false]
      rw [store_cross_backup_applied, insertLog_applied]
  · simp [hr]

theorem log_backup_establishes (w : World) (c t s : Nat) (q day : String)
    (hr : w.reachable c = true) :
    0 < countActive ((log_backup w c t s q day).1.recLog c)
      (generate_transaction_hash t s q day) := by
  rw [log_backup]
  simp only [hr, if_true]
  by_cases hc : 0 < countActive (w.recLog c) (generate_transaction_hash t s q day)
  · simp [hc]
  · simp only [hc, if_false]
    refine Nat.lt_of_lt_of_le ?_ (store_cross_backup_countActive_le _ c t s q _ c _)
    rw [insertLog_recLog_self,
      countActive_append_match _ _ _ (by simp [activeStatus])]
    exact Nat.succ_pos _

theorem replicate_reachable (w : World) (q : String) (s t : Nat) (day : String) :
    (replicate_transaction w q s t day).1.reachable = w.reachable := by
  rw [replicate_transaction]
  by_cases hr : w.reachable t = true
  · simp [hr, World.commitStmt]
  · simp only [hr]
    simp [hr, log_backup_reachable]

theorem replicate_countActive_le (w : World) (q : String) (s t : Nat) (day : String)
    (n : Nat) (h : String) :
    countActive (w.recLog n) h ≤ countActive ((replicate_transaction w q s t day).1.recLog n) h := by
  rw [replicate_transaction]
  by_cases hr : w.reachable t = true
  · simp [hr, World.commitStmt]
  · simp only [hr]
    simpa [hr] using log_backup_countActive_le w s t s q day n h

theorem replicate_applied_mem (w : World) (q : String) (s t : Nat) (day : String)
    (n : Nat) (x : String) (hx : x ∈ w.applied n) :
    x ∈ (replicate_transaction w q s t day).1.applied n := by
  rw [replicate_transaction]
  by_cases hr : w.reachable t = true
  · simp only [hr, if_true, World.commitStmt]
    by_cases hnt : n = t
    · subst hnt
      simp only [if_pos rfl]
      exact List.mem_append_left _ hx
    · simpa [hnt] using hx
  · simp only [hr]
    simpa [hr, log_backup_applied] using hx

theorem runReplications_reachable (q : String) (p : Nat) (day : String) :
    ∀ (ts : List Nat) (w : World),
      (runReplications q p day ts w).1.reachable = w.reachable
  | [], _ => rfl
  | t :: ts, w => by
      rw [runReplications]
      rw [runReplications_reachable q p day ts]
      exact replicate_reachable w q p t day

theorem runReplications_countActive_le (q : String) (p : Nat) (day : String)
    (n : Nat) (h : String) :
    ∀ (ts : List Nat) (w : World),
      countActive (w.recLog n) h ≤ countActive ((runReplications q p day ts w).1.recLog n) h
  | [], _ => Nat.le_refl _
  | t :: ts, w => by
      rw [runReplications]
      exact Nat.le_trans (replicate_countActive_le w q p t day n h)
        (runReplications_countActive_le q p day n h ts _)

theorem runReplications_applied_mem (q : String) (p : Nat) (day : String)
    (n : Nat) (x : String) :
    ∀ (ts : List Nat) (w : World), x ∈ w.applied n →
      x ∈ (runReplications q p day ts w).1.applied n
  | [], _, hx => hx
  | t :: ts, w, hx => by
      rw [runReplications]
      exact runReplications_applied_mem q p day n x ts _
        (replicate_applied_mem w q p t day n x hx)

theorem runReplications_fst_map (q : String) (p : Nat) (day : String) :
    ∀ (ts : List Nat) (w : World),
      (runReplications q p day ts w).2.map Prod.fst = ts
  | [], _ => rfl
  | t :: ts, w => by
      rw [runReplications]
      simp only [List.map_cons]
      rw [runReplications_fst_map q p day ts]

theorem runReplications_logs_failures (q : String) (p : Nat) (day : String) :
    ∀ (ts : List Nat) (w : World), w.reachable p = true →
      ∀ t ∈ ts, w.reachable t = false →
        0 < countActive ((runReplications q p day ts w).1.recLog p)
          (generate_transaction_hash t p q day)
  | [], _, _, t, ht, _ => absurd ht (List.not_mem_nil t)
  | t0 :: ts, w, hp, t, ht, hunreach => by
      rw [runReplications]
      rcases List.mem_cons.mp ht with rfl | hmem
      · have hstep : replicate_transaction w q p t day
            = ((log_backup w p t p q day).1,
                ⟨false, (log_backup w p t p q day).2⟩) := by
          rw [replicate_transaction]
          simp [hunreach]
        have h0 : 0 < countActive ((replicate_transaction w q p t day).1.recLog p)
            (generate_transaction_hash t p q day) := by
          rw [hstep]
          exact log_backup_establishes w p t p q day hp
        exact Nat.lt_of_lt_of_le h0
          (runReplications_countActive_le q p day p _ ts _)
      · have hp1 : (replicate_transaction w q p t0 day).1.reachable p = true := by
          rw [replicate_reachable]; exact hp
        have ht1 : (replicate_transaction w q p t0 day).1.reachable t = false := by
          rw [replicate_reachable]; exact hunreach
        exact runReplications_logs_failures q p day ts _ hp1 t hmem ht1

/-- C1: in the commit path, once the primary commit has succeeded, the commit
never aborts (the result is committed and the write stays durable on the
primary), every replication target of the policy is attempted in turn, and for
every target that fails the pipeline invokes log_backup(target, primary, sql),
leaving an active recovery row with that hash on the primary (source) shard. -/
theorem C1_commit_replication (w : World) (query day : String) (primary pnode : Nat)
    (hreach : w.reachable primary = true) :
    (commitPipeline w query primary pnode day).2.committed = true ∧
    (commitPipeline w query primary pnode day).2.replications.map Prod.fst
      = replicationTargets primary pnode ∧
    query ∈ (commitPipeline w query primary pnode day).1.applied primary ∧
    ∀ t ∈ replicationTargets primary pnode, w.reachable t = false →
      0 < countActive ((commitPipeline w query primary pnode day).1.recLog primary)
        (generate_transaction_hash t primary query day) := by
  have hq0 : query ∈ (w.commitStmt primary query).applied primary := by
    simp [World.commitStmt]
  have hr0 : (w.commitStmt primary query).reachable = w.reachable := rfl
  refine ⟨rfl, ?_, ?_, ?_⟩
  · exact runReplications_fst_map query primary day _ _
  · exact runReplications_applied_mem query primary day primary query _ _ hq0
  · intro t ht hunreach
    exact runReplications_logs_failures query primary day _ _
      (by rw [hr0]; exact hreach) t ht (by rw [hr0]; exact hunreach)

/-- C1 witness: primary shard 2 (an emergency primary for partition key with
natural shard 3), shards 1 and 3 unreachable: both targets are attempted, both
failures are logged on shard 2, and the commit still succeeds. -/
theorem C1_commit_replication_witness :
    (commitPipeline ⟨fun _ => [], fun _ => 1, fun n => n == 2, fun _ => []⟩
      "UPDATE trans SET amount = 5" 2 3 "20251012").2.committed = true ∧
    (commitPipeline ⟨fun _ => [], fun _ => 1, fun n => n == 2, fun _ => []⟩
      "UPDATE trans SET amount = 5" 2 3 "20251012").2.replications.map Prod.fst = [1, 3] ∧
    0 < countActive ((commitPipeline ⟨fun _ => [], fun _ => 1, fun n => n == 2, fun _ => []⟩
      "UPDATE trans SET amount = 5" 2 3 "20251012").1.recLog 2)
      (generate_transaction_hash 1 2 "UPDATE trans SET amount = 5" "20251012") := by
  have h := C1_commit_replication ⟨fun _ => [], fun _ => 1, fun n => n == 2, fun _ => []⟩
    "UPDATE trans SET amount = 5" "20251012" 2 3 rfl
  refine ⟨h.1, ?_, h.2.2.2 1 (by decide) rfl⟩
  have := h.2.1
  rwa [show replicationTargets 2 3 = [1, 3] by decide] at this

theorem mark_status_applied (w : World) (nodeId logId : Nat) (st : LogStatus) (msg : String) :
    (mark_recovery_status_in_node w nodeId logId st msg).applied = w.applied := by
  unfold mark_recovery_status_in_node
  split <;> rfl

theorem mark_status_all (w : World) (nodeId logId : Nat) (st : LogStatus) (msg : String)
    (hr : w.reachable nodeId = true) :
    ∀ e ∈ (mark_recovery_status_in_node w nodeId logId st msg).recLog nodeId,
      e.logId = logId → e.status = st := by
  intro e he hid
  unfold mark_recovery_status_in_node at he
  simp only [hr, if_true] at he
  rcases List.mem_map.mp he with ⟨y, _, hy⟩
  by_cases hyid : y.logId = logId
  · rw [if_pos hyid] at hy
    rw [← hy]
  · rw [if_neg hyid] at hy
    rw [← hy] at hid
    exact absurd hid hyid

theorem mark_status_exists (w : World) (nodeId : Nat) (entry : RecEntry) (st : LogStatus)
    (msg : String) (hr : w.reachable nodeId = true) (hmem : entry ∈ w.recLog nodeId) :
    ∃ e ∈ (mark_recovery_status_in_node w nodeId entry.logId st msg).recLog nodeId,
      e.logId = entry.logId ∧ e.status = st := by
  unfold mark_recovery_status_in_node
  simp only [hr, if_true, if_pos rfl]
  refine ⟨{ entry with status := st, errorMessage := some msg }, ?_, rfl, rfl⟩
  exact List.mem_map.mpr ⟨entry, hmem, by rw [if_pos rfl]⟩

/-- C5: replay of an entry whose statement is already applied on the target
shard (or whose hash already appears as a COMPLETED row of the target shard's
recovery_log), given a remaining retry budget, the matching target node and
both shards reachable: the attempt returns skipped, the entry found on shard
foundIn is transitioned to COMPLETED, and no shard's trans data changes. -/
theorem C5_replay_idempotent (w : World) (maxR : Nat) (cur : Nat) (entry : RecEntry)
    (foundIn : Nat)
    (hretry : entry.retryCount < maxR)
    (htarget : entry.targetNode = cur)
    (hreach : w.reachable cur = true)
    (hfound : w.reachable foundIn = true)
    (hmem : entry ∈ w.recLog foundIn)
    (hdup : (entry.transactionHash ≠ "" ∧
        (w.recLog cur).any (fun e =>
          e.transactionHash = entry.transactionHash &&
            e.status = LogStatus.COMPLETED) = true) ∨
      entry.sqlStatement ∈ w.applied cur) :
    (attempt_recovery_cross_node w maxR cur entry foundIn).2 = RecResult.skipped ∧
    (attempt_recovery_cross_node w maxR cur entry foundIn).1.applied = w.applied ∧
    (∀ e ∈ (attempt_recovery_cross_node w maxR cur entry foundIn).1.recLog foundIn,
      e.logId = entry.logId → e.status = LogStatus.COMPLETED) ∧
    ∃ e ∈ (attempt_recovery_cross_node w maxR cur entry foundIn).1.recLog foundIn,
      e.logId = entry.logId ∧ e.status = LogStatus.COMPLETED := by
  have hnretry : ¬ maxR ≤ entry.retryCount := Nat.not_le_of_lt hretry
  have hntarget : ¬ entry.targetNode ≠ cur := fun h => h htarget
  have hnreach : ¬ w.reachable cur = false := by simp [hreach]
  by_cases hhash : entry.transactionHash ≠ "" ∧
      (w.recLog cur).any (fun e =>
        e.transactionHash = entry.transactionHash &&
          e.status = LogStatus.COMPLETED) = true
  · have hstep : attempt_recovery_cross_node w maxR cur entry foundIn
        = (mark_recovery_status_in_node w foundIn entry.logId LogStatus.COMPLETED
            "Duplicate transaction - already processed", RecResult.skipped) := by
      rw [attempt_recovery_cross_node]
      rw [if_neg hnretry, if_neg hntarget, if_neg hnreach, if_pos hhash]
    rw [hstep]
    exact ⟨rfl, mark_status_applied w foundIn entry.logId _ _,
      mark_status_all w foundIn entry.logId _ _ hfound,
      mark_status_exists w foundIn entry _ _ hfound hmem⟩
  · have happlied : entry.sqlStatement ∈ w.applied cur := by
      rcases hdup with h | h
      · exact absurd h hhash
      · exact h
    have hstep : attempt_recovery_cross_node w maxR cur entry foundIn
        = (mark_recovery_status_in_node w foundIn entry.logId LogStatus.COMPLETED
            "Transaction already exists - duplicate detected", RecResult.skipped) := by
      rw [attempt_recovery_cross_node]
      rw [if_neg hnretry, if_neg hntarget, if_neg hnreach, if_neg hhash, if_pos happlied]
    rw [hstep]
    exact ⟨rfl, mark_status_applied w foundIn entry.logId _ _,
      mark_status_all w foundIn entry.logId _ _ hfound,
      mark_status_exists w foundIn entry _ _ hfound hmem⟩

/-- C5 witness: an INSERT already applied on shard 3, logged as entry 4 on
shard 1: the replay skips, marks entry 4 COMPLETED on shard 1, and no shard's
data changes. -/
theorem C5_replay_idempotent_witness :
    (attempt_recovery_cross_node
      ⟨fun n => if n = 1 then [⟨4, 3, 1, "INSERT INTO trans VALUES (9)", "h9",
          LogStatus.PENDING, 0, none⟩] else [],
        fun _ => 5, fun _ => true,
        fun n => if n = 3 then ["INSERT INTO trans VALUES (9)"] else []⟩
      3 3
      ⟨4, 3, 1, "INSERT INTO trans VALUES (9)", "h9", LogStatus.PENDING, 0, none⟩
      1).2 = RecResult.skipped ∧
    (attempt_recovery_cross_node
      ⟨fun n => if n = 1 then [⟨4, 3, 1, "INSERT INTO trans VALUES (9)", "h9",
          LogStatus.PENDING, 0, none⟩] else [],
        fun _ => 5, fun _ => true,
        fun n => if n = 3 then ["INSERT INTO trans VALUES (9)"] else []⟩
      3 3
      ⟨4, 3, 1, "INSERT INTO trans VALUES (9)", "h9", LogStatus.PENDING, 0, none⟩
      1).1.applied 3 = ["INSERT INTO trans VALUES (9)"] ∧
    ∃ e ∈ (attempt_recovery_cross_node
      ⟨fun n => if n = 1 then [⟨4, 3, 1, "INSERT INTO trans VALUES (9)", "h9",
          LogStatus.PENDING, 0, none⟩] else [],
        fun _ => 5, fun _ => true,
        fun n => if n = 3 then ["INSERT INTO trans VALUES (9)"] else []⟩
      3 3
      ⟨4, 3, 1, "INSERT INTO trans VALUES (9)", "h9", LogStatus.PENDING, 0, none⟩
      1).1.recLog 1, e.logId = 4 ∧ e.status = LogStatus.COMPLETED := by
  have h := C5_replay_idempotent
    ⟨fun n => if n = 1 then [⟨4, 3, 1, "INSERT INTO trans VALUES (9)", "h9",
        LogStatus.PENDING, 0, none⟩] else [],
      fun _ => 5, fun _ => true,
      fun n => if n = 3 then ["INSERT INTO trans VALUES (9)"] else []⟩
    3 3
    ⟨4, 3, 1, "INSERT INTO trans VALUES (9)", "h9", LogStatus.PENDING, 0, none⟩
    1 (by decide) rfl rfl rfl (by simp) (Or.inr (by simp))
  refine ⟨h.1, ?_, h.2.2.2⟩
  rw [h.2.1]
  simp

theorem mem_dedupByTransIdAux :
    ∀ (l : List TRow) (seen : List Nat) (e : TRow), e ∈ dedupByTransIdAux seen l →
      e ∈ l ∧ e.transId ∉ seen
  | [], seen, e, he => by simp [dedupByTransIdAux] at he
  | r :: rest, seen, e, he => by
      rw [dedupByTransIdAux] at he
      by_cases hr : r.transId ∈ seen
      · rw [if_pos hr] at he
        obtain ⟨h1, h2⟩ := mem_dedupByTransIdAux rest seen e he
        exact ⟨List.mem_cons_of_mem r h1, h2⟩
      · rw [if_neg hr] at he
        rcases List.mem_cons.mp he with rfl | h
        · exact ⟨List.mem_cons_self _ _, hr⟩
        · obtain ⟨h1, h2⟩ := mem_dedupByTransIdAux rest (r.transId :: seen) e h
          exact ⟨List.mem_cons_of_mem r h1, fun hmem => h2 (List.mem_cons_of_mem _ hmem)⟩

theorem find?_dedupByTransIdAux :
    ∀ (l : List TRow) (seen : List Nat) (e : TRow), e ∈ dedupByTransIdAux seen l →
      l.find? (fun x => x.transId == e.transId) = some e
  | [], seen, e, he => by simp [dedupByTransIdAux] at he
  | r :: rest, seen, e, he => by
      rw [dedupByTransIdAux] at he
      by_cases hr : r.transId ∈ seen
      · rw [if_pos hr] at he
        have hnot := (mem_dedupByTransIdAux rest seen e he).2
        have hne : r.transId ≠ e.transId := fun hEq => hnot (hEq ▸ hr)
        rw [List.find?_cons_of_neg _ (by simp [hne])]
        exact find?_dedupByTransIdAux rest seen e he
      · rw [if_neg hr] at he
        rcases List.mem_cons.mp he with rfl | h
        · exact List.find?_cons_of_pos _ (by simp)
        · have hnot := (mem_dedupByTransIdAux rest (r.transId :: seen) e h).2
          have hne : r.transId ≠ e.transId := by
            intro hEq
            exact hnot (hEq ▸ List.mem_cons_self _ _)
          rw [List.find?_cons_of_neg _ (by simp [hne])]
          exact find?_dedupByTransIdAux rest (r.transId :: seen) e h

theorem nodup_keys_dedupByTransIdAux :
    ∀ (l : List TRow) (seen : List Nat),
      ((dedupByTransIdAux seen l).map TRow.transId).Nodup
  | [], seen => by simp [dedupByTransIdAux]
  | r :: rest, seen => by
      rw [dedupByTransIdAux]
      by_cases hr : r.transId ∈ seen
      · rw [if_pos hr]
        exact nodup_keys_dedupByTransIdAux rest seen
      · rw [if_neg hr]
        simp only [List.map_cons, List.nodup_cons]
        refine ⟨?_, nodup_keys_dedupByTransIdAux rest (r.transId :: seen)⟩
        intro hmem
        rcases List.mem_map.mp hmem with ⟨e, he, hkey⟩
        have hnot := (mem_dedupByTransIdAux rest (r.transId :: seen) e he).2
        exact hnot (hkey ▸ List.mem_cons_self _ _)

theorem find?_dedupByTransId (l : List TRow) (e : TRow) (he : e ∈ dedupByTransId l) :
    l.find? (fun x => x.transId == e.transId) = some e :=
  find?_dedupByTransIdAux l [] e he

theorem nodup_keys_dedupByTransId (l : List TRow) :
    ((dedupByTransId l).map TRow.transId).Nodup :=
  nodup_keys_dedupByTransIdAux l []

/-- C7: scan-style read with no routing key: the result is unavailable exactly
when no shard is live; when the central shard is live the combined row source
is the central shard alone; when it is down the combined source is the
concatenation of the live partition shards; and every returned result is
sorted by trans_id, holds each trans_id at most once, respects the row limit,
and each of its rows is the first row of the combined source bearing its
trans_id (first occurrence wins). -/
theorem C7_scan_reconstruction (alive : Nat → Bool) (rows : Nat → List TRow) (L : Nat) :
    (scanRead alive rows L = none ↔
      (alive 1 = false ∧ alive 2 = false ∧ alive 3 = false)) ∧
    (alive 1 = true → combinedRows alive rows = rows 1) ∧
    (alive 1 = false →
      combinedRows alive rows
        = (if alive 2 then rows 2 else []) ++ (if alive 3 then rows 3 else [])) ∧
    ∀ out, scanRead alive rows L = some out →
      out.Sorted rowLe ∧
      (out.map TRow.transId).Nodup ∧
      out.length ≤ L ∧
      ∀ r ∈ out,
        (combinedRows alive rows).find? (fun x => x.transId == r.transId) = some r := by
  refine ⟨?_, ?_, ?_, ?_⟩
  · unfold scanRead
    by_cases hdead : alive 1 = false ∧ alive 2 = false ∧ alive 3 = false
    · simp [hdead]
    · simp [hdead]
  · intro h1
    unfold combinedRows
    rw [if_pos h1]
  · intro h1
    unfold combinedRows
    rw [if_neg (by simp [h1])]
  · intro out hout
    unfold scanRead at hout
    by_cases hdead : alive 1 = false ∧ alive 2 = false ∧ alive 3 = false
    · rw [if_pos hdead] at hout
      cases hout
    · rw [if_neg hdead] at hout
      have hout2 : out
          = (List.insertionSort rowLe (dedupByTransId (combinedRows alive rows))).take L :=
        (Option.some.injEq _ _ ▸ hout).symm
      subst hout2
      refine ⟨?_, ?_, ?_, ?_⟩
      · exact (List.sorted_insertionSort rowLe _).sublist (List.take_sublist _ _)
      · have hnd : ((List.insertionSort rowLe
            (dedupByTransId (combinedRows alive rows))).map TRow.transId).Nodup := by
          refine ((List.perm_insertionSort rowLe _).map TRow.transId).symm.nodup ?_
          exact nodup_keys_dedupByTransId _
        exact hnd.sublist ((List.take_sublist _ _).map TRow.transId)
      · simp [List.length_take]
      · intro r hr
        have hrs : r ∈ List.insertionSort rowLe (dedupByTransId (combinedRows alive rows)) :=
          (List.take_sublist _ _).mem hr
        have hrd : r ∈ dedupByTransId (combinedRows alive rows) :=
          (List.perm_insertionSort rowLe _).mem_iff.mp hrs
        exact find?_dedupByTransId _ r hrd

/-- C7 witness: central down, both partitions live sharing trans_id 2: the
result is the de-duplicated union (first occurrence from shard 2 wins),
sorted by trans_id and truncated to 3 rows. -/
theorem C7_scan_reconstruction_witness :
    scanRead (fun n => n == 2 || n == 3)
      (fun n => if n = 2 then [⟨4, "a"⟩, ⟨2, "b"⟩] else [⟨2, "c"⟩, ⟨1, "d"⟩, ⟨3, "e"⟩]) 3
      = some [⟨1, "d"⟩, ⟨2, "b"⟩, ⟨3, "e"⟩] ∧
    ([⟨1, "d"⟩, ⟨2, "b"⟩, ⟨3, "e"⟩] : List TRow).Sorted rowLe ∧
    (([⟨1, "d"⟩, ⟨2, "b"⟩, ⟨3, "e"⟩] : List TRow).map TRow.transId).Nodup := by
  have hres : scanRead (fun n => n == 2 || n == 3)
      (fun n => if n = 2 then [⟨4, "a"⟩, ⟨2, "b"⟩] else [⟨2, "c"⟩, ⟨1, "d"⟩, ⟨3, "e"⟩]) 3
      = some [⟨1, "d"⟩, ⟨2, "b"⟩, ⟨3, "e"⟩] := by decide
  have h := (C7_scan_reconstruction (fun n => n == 2 || n == 3)
      (fun n => if n = 2 then [⟨4, "a"⟩, ⟨2, "b"⟩] else [⟨2, "c"⟩, ⟨1, "d"⟩, ⟨3, "e"⟩]) 3).2.2.2
      [⟨1, "d"⟩, ⟨2, "b"⟩, ⟨3, "e"⟩] hres
  exact ⟨hres, h.1, h.2.1⟩

theorem processLogs_last_le (m : Nat) (ok : Nat → Bool) :
    ∀ (pend log : List CEntry) (last : Nat), last ≤ (processLogs m ok pend log last).2
  | [], _, _ => Nat.le_refl _
  | e :: rest, log, last => by
      simp only [processLogs]
      by_cases hc : ((attemptEntry m ok e).2 && decide (e.logId = last + 1)) = true
      · rw [if_pos hc]
        have hid : (attemptEntry m ok e).2 = true ∧ e.logId = last + 1 := by
          simpa using hc
        exact Nat.le_trans (by omega) (processLogs_last_le m ok rest _ e.logId)
      · rw [if_neg hc]
        exact processLogs_last_le m ok rest _ last

theorem processLogs_last_const (m : Nat) (ok : Nat → Bool) :
    ∀ (pend log : List CEntry) (last : Nat), (∀ e ∈ pend, last + 1 < e.logId) →
      (processLogs m ok pend log last).2 = last
  | [], _, _, _ => rfl
  | e :: rest, log, last, hgt => by
      simp only [processLogs]
      have hne : e.logId ≠ last + 1 := Nat.ne_of_gt (hgt e (List.mem_cons_self _ _))
      have hc : ((attemptEntry m ok e).2 && decide (e.logId = last + 1)) ≠ true := by
        simp [hne]
      rw [if_neg hc]
      exact processLogs_last_const m ok rest _ last
        (fun x hx => hgt x (List.mem_cons_of_mem e hx))

theorem processLogs_chain (m : Nat) (ok : Nat → Bool) :
    ∀ (pend log : List CEntry) (last : Nat),
      List.Pairwise (fun a b : CEntry => a.logId < b.logId) pend →
      ∀ k, last < k → k ≤ (processLogs m ok pend log last).2 →
        ∃ e ∈ pend, e.logId = k ∧ (attemptEntry m ok e).2 = true
  | [], _, last, _, k, hk1, hk2 => by
      simp only [processLogs] at hk2
      omega
  | e :: rest, log, last, hpw, k, hk1, hk2 => by
      obtain ⟨hhead, htail⟩ := List.pairwise_cons.mp hpw
      simp only [processLogs] at hk2
      by_cases hc : ((attemptEntry m ok e).2 && decide (e.logId = last + 1)) = true
      · rw [if_pos hc] at hk2
        have hparts : (attemptEntry m ok e).2 = true ∧ e.logId = last + 1 := by
          simpa using hc
        have hsucc : (attemptEntry m ok e).2 = true := hparts.1
        have hid : e.logId = last + 1 := hparts.2
        by_cases hke : k = e.logId
        · exact ⟨e, List.mem_cons_self _ _, hke.symm, hsucc⟩
        · have hk1e : e.logId < k := by omega
          obtain ⟨e2, he2, h2⟩ := processLogs_chain m ok rest _ e.logId htail k hk1e hk2
          exact ⟨e2, List.mem_cons_of_mem e he2, h2⟩
      · rw [if_neg hc] at hk2
        obtain ⟨e2, he2, h2⟩ := processLogs_chain m ok rest _ last htail k hk1 hk2
        exact ⟨e2, List.mem_cons_of_mem e he2, h2⟩

theorem processLogs_highest (m : Nat) (ok : Nat → Bool) :
    ∀ (pend log : List CEntry) (last : Nat),
      (∀ e ∈ pend, last < e.logId) →
      List.Pairwise (fun a b : CEntry => a.logId < b.logId) pend →
      ∀ e0 ∈ pend, e0.logId = (processLogs m ok pend log last).2 + 1 →
        (attemptEntry m ok e0).2 = false
  | [], _, _, _, _, e0, he0, _ => absurd he0 (List.not_mem_nil e0)
  | e :: rest, log, last, hgt, hpw, e0, he0, hid0 => by
      obtain ⟨hhead, htail⟩ := List.pairwise_cons.mp hpw
      simp only [processLogs] at hid0
      by_cases hc : ((attemptEntry m ok e).2 && decide (e.logId = last + 1)) = true
      · rw [if_pos hc] at hid0
        have hle := processLogs_last_le m ok rest
          (markCEntry log (attemptEntry m ok e).1) e.logId
        rcases List.mem_cons.mp he0 with rfl | hmem
        · omega
        · exact processLogs_highest m ok rest _ e.logId hhead htail e0 hmem hid0
      · rw [if_neg hc] at hid0
        by_cases hsucc : (attemptEntry m ok e).2 = true
        · have hne : e.logId ≠ last + 1 := by
            intro h
            exact hc (by simp [hsucc, h])
          have hegt : last + 1 < e.logId := by
            have := hgt e (List.mem_cons_self _ _)
            omega
          have hconst : (processLogs m ok rest
              (markCEntry log (attemptEntry m ok e).1) last).2 = last :=
            processLogs_last_const m ok rest _ last
              (fun x hx => Nat.lt_trans hegt (hhead x hx))
          rw [hconst] at hid0
          rcases List.mem_cons.mp he0 with rfl | hmem
          · omega
          · have := hhead e0 hmem
            omega
        · rcases List.mem_cons.mp he0 with rfl | hmem
          · exact Bool.not_eq_true _ ▸ Bool.of_not_eq_true hsucc
          · exact processLogs_highest m ok rest _ last
              (fun x hx => hgt x (List.mem_cons_of_mem e hx)) htail e0 hmem hid0

theorem fetch_mem_iff (log : List CEntry) (cp : Nat) (e : CEntry) :
    e ∈ fetchPendingSince log cp ↔
      (e ∈ log ∧ cp < e.logId ∧ e.status = LogStatus.PENDING) := by
  unfold fetchPendingSince
  rw [(List.perm_insertionSort entryLe _).mem_iff]
  simp [List.mem_filter, and_assoc]

theorem fetch_pairwise (log : List CEntry) (cp : Nat)
    (hnodup : (log.map CEntry.logId).Nodup) :
    List.Pairwise (fun a b : CEntry => a.logId < b.logId) (fetchPendingSince log cp) := by
  have hsorted : (fetchPendingSince log cp).Sorted entryLe :=
    List.sorted_insertionSort entryLe _
  have hnd1 : ((log.filter
      (fun e => decide (cp < e.logId) && e.status = LogStatus.PENDING)).map
        CEntry.logId).Nodup :=
    hnodup.sublist ((List.filter_sublist log).map CEntry.logId)
  have hnd2 : ((fetchPendingSince log cp).map CEntry.logId).Nodup :=
    (((List.perm_insertionSort entryLe _).map CEntry.logId).symm).nodup hnd1
  have hne : List.Pairwise (fun a b : CEntry => a.logId ≠ b.logId)
      (fetchPendingSince log cp) := List.pairwise_map.mp hnd2
  exact (hsorted.and hne).imp (fun hab => Nat.lt_of_le_of_ne hab.1 hab.2)

/-- C2 amended: one drain cycle for a shard processes the rows fetched by
log_id > C in ascending log_id order (pairwise strictly increasing fetch, the
fetch holding exactly the PENDING rows past the checkpoint), the persisted
checkpoint never decreases, every log_id in (C, C.new] belongs to a fetched
row processed successfully (consecutive successes from C + 1 with no gap), and
the fetched row with log_id C.new + 1, if any, was not processed successfully
(C.new is the highest such consecutive success); successfully processed rows
are marked COMPLETED, so a non-consecutive success past a failure is not
refetched by a later cycle (the counterexample exhibits this). -/
theorem C2_checkpoint_drain (m : Nat) (ok : Nat → Bool) (log : List CEntry) (cp : Nat)
    (hnodup : (log.map CEntry.logId).Nodup) :
    List.Pairwise (fun a b : CEntry => a.logId < b.logId) (fetchPendingSince log cp) ∧
    (∀ e, e ∈ fetchPendingSince log cp ↔
      (e ∈ log ∧ cp < e.logId ∧ e.status = LogStatus.PENDING)) ∧
    cp ≤ (processNodeCycle m ok log cp).2 ∧
    (∀ k, cp < k → k ≤ (processNodeCycle m ok log cp).2 →
      ∃ e ∈ fetchPendingSince log cp, e.logId = k ∧ (attemptEntry m ok e).2 = true) ∧
    (∀ e ∈ fetchPendingSince log cp, e.logId = (processNodeCycle m ok log cp).2 + 1 →
      (attemptEntry m ok e).2 = false) := by
  have hpw := fetch_pairwise log cp hnodup
  have hgt : ∀ e ∈ fetchPendingSince log cp, cp < e.logId :=
    fun e he => ((fetch_mem_iff log cp e).mp he).2.1
  have hle := processLogs_last_le m ok (fetchPendingSince log cp) log cp
  have heq : (processNodeCycle m ok log cp).2
      = (processLogs m ok (fetchPendingSince log cp) log cp).2 := by
    unfold processNodeCycle
    by_cases h : cp < (processLogs m ok (fetchPendingSince log cp) log cp).2
    · simp [h]
    · have h2 : (processLogs m ok (fetchPendingSince log cp) log cp).2 = cp :=
        Nat.le_antisymm (Nat.le_of_not_lt h) hle
      simp [h, h2]
  refine ⟨hpw, fetch_mem_iff log cp, ?_, ?_, ?_⟩
  · rw [heq]
    exact hle
  · intro k hk1 hk2
    rw [heq] at hk2
    exact processLogs_chain m ok (fetchPendingSince log cp) log cp hpw k hk1 hk2
  · intro e he hid
    rw [heq] at hid
    exact processLogs_highest m ok (fetchPendingSince log cp) log cp hgt hpw e he hid

/-- C2 counterexample, refuting the claim as stated: shard log holds PENDING
rows 1 and 2, row 1 fails to replay, row 2 succeeds (non-consecutively).  The
checkpoint stays 0 as required, but row 2 is marked COMPLETED, and the next
cycle's fetch (PENDING rows with log_id past the checkpoint) returns only row
1: the non-consecutive success is not retried next cycle. -/
theorem C2_checkpoint_drain_counterexample :
    (processNodeCycle 3 (fun id => id == 2)
      [⟨1, LogStatus.PENDING, 0⟩, ⟨2, LogStatus.PENDING, 0⟩] 0).2 = 0 ∧
    (∃ e ∈ (processNodeCycle 3 (fun id => id == 2)
      [⟨1, LogStatus.PENDING, 0⟩, ⟨2, LogStatus.PENDING, 0⟩] 0).1,
        e.logId = 2 ∧ e.status = LogStatus.COMPLETED) ∧
    (fetchPendingSince
      (processNodeCycle 3 (fun id => id == 2)
        [⟨1, LogStatus.PENDING, 0⟩, ⟨2, LogStatus.PENDING, 0⟩] 0).1
      (processNodeCycle 3 (fun id => id == 2)
        [⟨1, LogStatus.PENDING, 0⟩, ⟨2, LogStatus.PENDING, 0⟩] 0).2).map CEntry.logId
      = [1] := by
  decide

/-- C2 witness: both rows replay successfully, the checkpoint advances to 2,
and each log_id in (0, 2] is a fetched consecutive success. -/
theorem C2_checkpoint_drain_witness :
    0 ≤ (processNodeCycle 3 (fun _ => true)
      [⟨1, LogStatus.PENDING, 0⟩, ⟨2, LogStatus.PENDING, 0⟩] 0).2 ∧
    (processNodeCycle 3 (fun _ => true)
      [⟨1, LogStatus.PENDING, 0⟩, ⟨2, LogStatus.PENDING, 0⟩] 0).2 = 2 ∧
    ∃ e ∈ fetchPendingSince
        [⟨1, LogStatus.PENDING, 0⟩, ⟨2, LogStatus.PENDING, 0⟩] 0,
      e.logId = 2 ∧ (attemptEntry 3 (fun _ => true) e).2 = true := by
  have h := C2_checkpoint_drain 3 (fun _ => true)
    [⟨1, LogStatus.PENDING, 0⟩, ⟨2, LogStatus.PENDING, 0⟩] 0 (by decide)
  exact ⟨h.2.2.1, by decide, h.2.2.2.1 2 (by decide) (by decide)⟩

end DistCoord
